import Mathlib

/-!
Verification development for the `TargetPool` resolution cache of
syntest-solidity (`src/analysis/static/TargetPool.ts`, shipped here as
`src/search/sampling/SoliditySampler.ts`).

The embedding models:
* node's `path.resolve` (segment splitting, `.`/`..` normalization against a
  working directory), used on every cache access;
* JavaScript `Map` as an insertion-ordered association list (`Map.set`
  replaces in place, `Map.get` on a missing key yields `undefined`);
* the `TargetPool` class: its caches are a `PState` record, its four injected
  generators are an `Env` of pure functions, and each method is a function
  `Env → PState → ... → Except Err α × PState` (a thrown JS exception is
  `Except.error`, and the mutations made before the throw persist in the
  returned state, matching JS semantics).

Generated artifacts (ASTs, target/function maps, CFGs, Targets) carry a
freshness stamp drawn from per-generator invocation counters, so that
reference identity ("the identical cached instance") and "the generator was
invoked at most once" are expressible.
-/

namespace TargetPool

/-! ## node `path.resolve` model -/

/-- Split a character list on `/`, dropping empty segments
(`"/a//b/".split` gives `["a", "b"]`), accumulating the current segment
in reverse in `cur`. -/
def splitSlashAux : List Char → List Char → List String
  | [], cur => if cur.isEmpty then [] else [String.mk cur.reverse]
  | c :: rest, cur =>
    if c = '/' then
      (if cur.isEmpty then [] else [String.mk cur.reverse]) ++ splitSlashAux rest []
    else
      splitSlashAux rest (c :: cur)

/-- The non-empty `/`-separated segments of a path string. -/
def pathSegs (s : String) : List String :=
  splitSlashAux s.data []

/-- Join segments with `/` (no leading slash). -/
def joinSegs : List String → String
  | [] => ""
  | [s] => s
  | s :: rest => s ++ "/" ++ joinSegs rest

/-- Render an absolute path from its segments. -/
def unsplit (l : List String) : String :=
  "/" ++ joinSegs l

/-- Normalization pass of `path.resolve`: drop `.` segments, let `..` pop the
previous segment (staying put at the root), keep the rest.  `acc` holds the
kept segments in reverse. -/
def normAcc : List String → List String → List String
  | acc, [] => acc.reverse
  | acc, s :: rest =>
    if s = "." then normAcc acc rest
    else if s = ".." then normAcc acc.tail rest
    else normAcc (s :: acc) rest

/-- A path is absolute when it starts with `/`. -/
def isAbsolute (p : String) : Bool :=
  match p.data with
  | c :: _ => c == '/'
  | [] => false

/-- node `path.resolve(p)` with working directory `cwd` (an absolute path, as
`process.cwd()` always is): an absolute `p` is normalized as is, a relative
`p` is appended to `cwd` first. -/
def resolve (cwd : String) (p : String) : String :=
  unsplit (normAcc [] (if isAbsolute p then pathSegs p else pathSegs cwd ++ pathSegs p))

/-! ## JavaScript `Map` model -/

/-- `Map.get(k)`, as an `Option` (`undefined` on a missing key). -/
def mget? {α : Type} : List (String × α) → String → Option α
  | [], _ => none
  | (k, v) :: rest, key => if k = key then some v else mget? rest key

/-- `Map.set(k, v)`: replace in place if the key is present, else append. -/
def mset {α : Type} : List (String × α) → String → α → List (String × α)
  | [], key, v => [(key, v)]
  | (k, w) :: rest, key, v =>
    if k = key then (key, v) :: rest else (k, w) :: mset rest key v

/-! ## Data model -/

/-- A parsed syntax tree: the source text it was parsed from plus a freshness
stamp distinguishing distinct parser invocations (reference identity). -/
structure AST where
  id : Nat
  source : String
deriving DecidableEq, Repr

/-- A control-flow graph produced by `SolidityCFGFactory.convertAST`, tagged
with the invocation stamp and the source it came from. -/
structure CFG where
  id : Nat
  source : String
deriving DecidableEq, Repr

/-- The target map produced by one `TargetMapGenerator.generate` run: the
names of the contract-like targets of the file, stamped with the run. -/
structure TMap where
  id : Nat
  targets : List String
deriving DecidableEq, Repr

/-- The function maps produced by the same `TargetMapGenerator.generate` run:
per target name, the declared function names, stamped with the run. -/
structure FMaps where
  id : Nat
  entries : List (String × List String)
deriving DecidableEq, Repr

/-- Modelled from the spec: the assembled `Target` entity (its class is not
under `src/`): file path, target name, source, AST, context, function map,
CFG, linking graph and dependency list; `context`/`linkingGraph` are opaque
tags and `stamp` counts `new Target(...)` constructions (instance identity). -/
structure Target where
  path : String
  name : String
  source : String
  ast : AST
  context : Nat
  functionMap : List String
  controlFlowGraph : CFG
  linkingGraph : Nat
  dependencies : List String
  stamp : Nat
deriving DecidableEq, Repr

/-- The exceptions the pool's methods can propagate. -/
inductive Err where
  /-- JS `TypeError` from dereferencing the never-assigned `_targets` field. -/
  | typeError
  /-- `SourceGenerator.generate` threw (unreadable file). -/
  | ioError
  /-- `ASTGenerator.generate` threw (syntactically invalid source). -/
  | parseError
  /-- `getFunctionMap` threw `new Error` for an unknown target name. -/
  | unknownTarget (targetName : String) (targetPath : String)
deriving DecidableEq, Repr

/-- The message carried by each exception; for `unknownTarget` it is the
string built at `TargetPool.getFunctionMap`. -/
def Err.message : Err → String
  | .typeError => "TypeError: Cannot read properties of undefined"
  | .ioError => "IOError"
  | .parseError => "ParseError"
  | .unknownTarget targetName targetPath =>
      "Target " ++ targetName ++ " could not be found at " ++ targetPath

/-- Whether an outcome is a thrown exception. -/
def isErr {α : Type} : Except Err α → Bool
  | .error _ => true
  | .ok _ => false

/-- The pure behaviour of the four injected generators and of the process
(working directory); `sourceGen` returning `none` models an I/O failure and
`astParses s = false` models a parser exception on source `s`.
`contextOf`, `linkingOf` and `depsOf` are modelled from the spec: they stand
for the `DependencyAnalyzer` results (its code is not under `src/`), which
`createTarget` merely stores into the assembled `Target`. -/
structure Env where
  cwd : String
  sourceGen : String → Option String
  astParses : String → Bool
  targetsOf : String → List String
  functionsOf : String → String → List String
  contextOf : String → String → Nat
  linkingOf : String → String → Nat
  depsOf : String → List String

/-- The mutable fields of a `TargetPool` object.  `targets` is an `Option`
because the constructor never assigns `_targets`, so the field holds
`undefined` (`none`) until someone else assigns it.  The `*Calls` counters
count generator invocations and provide the freshness stamps; `targetNews`
counts `new Target(...)` constructions. -/
structure PState where
  targets : Option (List (String × List (String × Target)))
  sources : List (String × String)
  asts : List (String × AST)
  targetMap : List (String × TMap)
  functionMaps : List (String × FMaps)
  controlFlowGraphs : List (String × CFG)
  sourceCalls : Nat
  astCalls : Nat
  mapCalls : Nat
  cfgCalls : Nat
  targetNews : Nat
deriving DecidableEq, Repr

/-- The state right after `new TargetPool(...)`: the five declared caches are
fresh empty `Map`s, while `_targets` is left unassigned (`none`). -/
def initState : PState where
  targets := none
  sources := []
  asts := []
  targetMap := []
  functionMaps := []
  controlFlowGraphs := []
  sourceCalls := 0
  astCalls := 0
  mapCalls := 0
  cfgCalls := 0
  targetNews := 0

/-! ## The `TargetPool` methods -/

/-- `TargetPool.getSource` (lines 141-151): resolve the path, return the
cached source if present, otherwise invoke `SourceGenerator.generate` and
cache the result under the resolved path. -/
def getSource (env : Env) (st : PState) (targetPath : String) :
    Except Err String × PState :=
  let absoluteTargetPath := resolve env.cwd targetPath
  match mget? st.sources absoluteTargetPath with
  | some source => (Except.ok source, st)
  | none =>
    let st1 := { st with sourceCalls := st.sourceCalls + 1 }
    match env.sourceGen absoluteTargetPath with
    | none => (Except.error Err.ioError, st1)
    | some source =>
      (Except.ok source,
        { st1 with sources := mset st1.sources absoluteTargetPath source })

/-- `TargetPool.getAST` (lines 153-165): resolve the path, return the cached
AST if present, otherwise fetch the source through `getSource`, invoke
`ASTGenerator.generate` on it and cache the fresh tree under the resolved
path. -/
def getAST (env : Env) (st : PState) (targetPath : String) :
    Except Err AST × PState :=
  let absoluteTargetPath := resolve env.cwd targetPath
  match mget? st.asts absoluteTargetPath with
  | some ast => (Except.ok ast, st)
  | none =>
    match getSource env st absoluteTargetPath with
    | (Except.error e, st1) => (Except.error e, st1)
    | (Except.ok targetSource, st1) =>
      let st2 := { st1 with astCalls := st1.astCalls + 1 }
      if env.astParses targetSource then
        let targetAST : AST := ⟨st1.astCalls, targetSource⟩
        (Except.ok targetAST,
          { st2 with asts := mset st2.asts absoluteTargetPath targetAST })
      else
        (Except.error Err.parseError, st2)

/-- One `TargetMapGenerator.generate` run on an AST: the target map and the
function maps of the file, both stamped with the same run identifier. -/
def generateMaps (env : Env) (runId : Nat) (src : String) : TMap × FMaps :=
  (⟨runId, env.targetsOf src⟩,
   ⟨runId, (env.targetsOf src).map (fun n => (n, env.functionsOf src n))⟩)

/-- `TargetPool.getTargetMap` (lines 167-180): resolve the path, return the
cached target map if present, otherwise get the AST, run the generator once
and store both the target map and the function maps under the resolved
path. -/
def getTargetMap (env : Env) (st : PState) (targetPath : String) :
    Except Err TMap × PState :=
  let absoluteTargetPath := resolve env.cwd targetPath
  match mget? st.targetMap absoluteTargetPath with
  | some targetMap => (Except.ok targetMap, st)
  | none =>
    match getAST env st absoluteTargetPath with
    | (Except.error e, st1) => (Except.error e, st1)
    | (Except.ok targetAST, st1) =>
      let gm := generateMaps env st1.mapCalls targetAST.source
      (Except.ok gm.1,
        { st1 with
            mapCalls := st1.mapCalls + 1
            targetMap := mset st1.targetMap absoluteTargetPath gm.1
            functionMaps := mset st1.functionMaps absoluteTargetPath gm.2 })

/-- Lines 193-199 of `TargetPool.getFunctionMap`: look the target name up in
the file's function maps; a hit returns the inner map, a miss throws
`new Error` naming the target and the raw path (and a missing outer entry
would be a JS `TypeError` on `undefined`). -/
def functionMapLookup (st : PState) (rp targetPath targetName : String) :
    Except Err (List String) × PState :=
  match mget? st.functionMaps rp with
  | none => (Except.error Err.typeError, st)
  | some fm =>
    match mget? fm.entries targetName with
    | some fns => (Except.ok fns, st)
    | none => (Except.error (Err.unknownTarget targetName targetPath), st)

/-- `TargetPool.getFunctionMap` (lines 182-200): if the function maps of the
resolved path are not cached, get the AST, run the target-map generator and
store both maps; then look the requested target name up, throwing when it is
absent. -/
def getFunctionMap (env : Env) (st : PState) (targetPath targetName : String) :
    Except Err (List String) × PState :=
  let absoluteTargetPath := resolve env.cwd targetPath
  match mget? st.functionMaps absoluteTargetPath with
  | some _ => functionMapLookup st absoluteTargetPath targetPath targetName
  | none =>
    match getAST env st absoluteTargetPath with
    | (Except.error e, st1) => (Except.error e, st1)
    | (Except.ok targetAST, st1) =>
      let gm := generateMaps env st1.mapCalls targetAST.source
      functionMapLookup
        { st1 with
            mapCalls := st1.mapCalls + 1
            targetMap := mset st1.targetMap absoluteTargetPath gm.1
            functionMaps := mset st1.functionMaps absoluteTargetPath gm.2 }
        absoluteTargetPath targetPath targetName

/-- Lines 211-218 of `TargetPool.getCFG`: get the AST, invoke
`SolidityCFGFactory.convertAST` and store the fresh CFG in
`_controlFlowGraphs` under the resolved path (a map this class never reads
back). -/
def getCFGGenerate (env : Env) (st : PState) (rp : String) :
    Except Err CFG × PState :=
  match getAST env st rp with
  | (Except.error e, st1) => (Except.error e, st1)
  | (Except.ok targetAST, st1) =>
    let cfg : CFG := ⟨st1.cfgCalls, targetAST.source⟩
    (Except.ok cfg,
      { st1 with
          cfgCalls := st1.cfgCalls + 1
          controlFlowGraphs := mset st1.controlFlowGraphs rp cfg })

/-- `TargetPool.getCFG` (lines 202-219): dereference `_targets` (a `TypeError`
while it is unassigned); if it holds a `Target` for the resolved path and
target name, return that target's embedded CFG, otherwise convert the AST
afresh. -/
def getCFG (env : Env) (st : PState) (targetPath targetName : String) :
    Except Err CFG × PState :=
  let absoluteTargetPath := resolve env.cwd targetPath
  match st.targets with
  | none => (Except.error Err.typeError, st)
  | some targetsMap =>
    match mget? targetsMap absoluteTargetPath with
    | some inner =>
      match mget? inner targetName with
      | some tgt => (Except.ok tgt.controlFlowGraph, st)
      | none => getCFGGenerate env st absoluteTargetPath
    | none => getCFGGenerate env st absoluteTargetPath

/-- `TargetPool.createTarget` (lines 93-139): resolve the path, fetch source,
AST, function map and CFG through the pool, run the `DependencyAnalyzer`
(modelled from the spec as the pure `Env` data it produces, fed the raw
`targetPath` as in lines 108-118), build the `Target`, and store it in
`_targets` under the *raw* `targetPath` — after first replacing the inner map
by a fresh empty one whenever the key is already present (lines 132-136; when
the key is absent, `.get(targetPath)` is `undefined` and `.set` on it throws
a `TypeError`). -/
def createTarget (env : Env) (st : PState) (targetPath targetName : String) :
    Except Err Target × PState :=
  let absoluteTargetPath := resolve env.cwd targetPath
  match getSource env st absoluteTargetPath with
  | (Except.error e, st1) => (Except.error e, st1)
  | (Except.ok source, st1) =>
  match getAST env st1 absoluteTargetPath with
  | (Except.error e, st2) => (Except.error e, st2)
  | (Except.ok abstractSyntaxTree, st2) =>
  match getFunctionMap env st2 absoluteTargetPath targetName with
  | (Except.error e, st3) => (Except.error e, st3)
  | (Except.ok functionMap, st3) =>
  match getCFG env st3 absoluteTargetPath targetName with
  | (Except.error e, st4) => (Except.error e, st4)
  | (Except.ok controlFlowGraph, st4) =>
    let target : Target :=
      ⟨absoluteTargetPath, targetName, source, abstractSyntaxTree,
       env.contextOf targetPath targetName, functionMap, controlFlowGraph,
       env.linkingOf targetPath targetName, env.depsOf targetPath,
       st4.targetNews⟩
    let st5 := { st4 with targetNews := st4.targetNews + 1 }
    match st5.targets with
    | none => (Except.error Err.typeError, st5)
    | some targetsMap =>
      let targetsMap1 :=
        if (mget? targetsMap targetPath).isSome then mset targetsMap targetPath []
        else targetsMap
      match mget? targetsMap1 targetPath with
      | none => (Except.error Err.typeError, st5)
      | some inner =>
        (Except.ok target,
          { st5 with
              targets := some (mset targetsMap1 targetPath (mset inner targetName target)) })

/-- The two map caches are populated in lock step: for every key either both
lack an entry or both hold one produced by the same generator run. -/
def SyncInv (st : PState) : Prop :=
  ∀ k, (mget? st.targetMap k = none ∧ mget? st.functionMaps k = none) ∨
    (∃ tm fm, mget? st.targetMap k = some tm ∧ mget? st.functionMaps k = some fm ∧
      tm.id = fm.id)

/-! ## Concrete fixtures used by witnesses and counterexamples -/

/-- A well-behaved environment: working directory `/w`, every file reads as
`"srcA"`, which parses and declares one target `A` with one function `f`. -/
def envA : Env where
  cwd := "/w"
  sourceGen := fun _ => some "srcA"
  astParses := fun _ => true
  targetsOf := fun _ => ["A"]
  functionsOf := fun _ _ => ["f"]
  contextOf := fun _ _ => 0
  linkingOf := fun _ _ => 0
  depsOf := fun _ => []

/-- An environment whose parser rejects every source. -/
def envBad : Env where
  cwd := "/w"
  sourceGen := fun _ => some "bad"
  astParses := fun _ => false
  targetsOf := fun _ => []
  functionsOf := fun _ _ => []
  contextOf := fun _ _ => 0
  linkingOf := fun _ _ => 0
  depsOf := fun _ => []

/-- An environment whose source loader fails on every file. -/
def envNoSrc : Env where
  cwd := "/w"
  sourceGen := fun _ => none
  astParses := fun _ => true
  targetsOf := fun _ => []
  functionsOf := fun _ _ => []
  contextOf := fun _ _ => 0
  linkingOf := fun _ _ => 0
  depsOf := fun _ => []

/-- A pool state whose `_targets` field has been bootstrapped to an empty map
(the code itself never assigns it). -/
def stTargetsEmpty : PState := { initState with targets := some [] }

/-- A previously assembled `Target` for name `B` of file `/w/a.sol`. -/
def tgtB : Target :=
  ⟨"/w/a.sol", "B", "srcA", ⟨0, "srcA"⟩, 0, ["f"], ⟨0, "srcA"⟩, 0, [], 0⟩

/-- A pool state with `_targets` holding `tgtB` under the raw key `a.sol`. -/
def stSeeded : PState :=
  { initState with targets := some [("a.sol", [("B", tgtB)])] }

/-- The `Target` that `createTarget envA stSeeded "a.sol" "A"` assembles. -/
def tgtNew : Target :=
  ⟨"/w/a.sol", "A", "srcA", ⟨0, "srcA"⟩, 0, ["f"], ⟨0, "srcA"⟩, 0, [], 0⟩

/-- The target map entry of `/w/a.sol` under `envA`. -/
def tmA : TMap := ⟨0, ["A"]⟩

/-- The function maps entry of `/w/a.sol` under `envA`. -/
def fmA : FMaps := ⟨0, [("A", ["f"])]⟩

/-- A pool state whose map caches already hold the entries for `/w/a.sol`. -/
def stFM : PState :=
  { initState with
      targetMap := [("/w/a.sol", tmA)]
      functionMaps := [("/w/a.sol", fmA)] }

/-! ## Lemmas about the `Map` model -/

theorem mget?_mset_self {α : Type} (l : List (String × α)) (k : String) (v : α) :
    mget? (mset l k v) k = some v := by
  induction l with
  | nil => simp [mset, mget?]
  | cons hd tl ih =>
    obtain ⟨k', w⟩ := hd
    by_cases hk : k' = k <;> simp [mset, mget?, hk, ih]

theorem mget?_mset_ne {α : Type} (l : List (String × α)) (k k' : String) (v : α)
    (h : k' ≠ k) : mget? (mset l k v) k' = mget? l k' := by
  have h' : ¬ k = k' := Ne.symm h
  induction l with
  | nil => simp [mset, mget?, h']
  | cons hd tl ih =>
    obtain ⟨k'', w⟩ := hd
    by_cases hk : k'' = k
    · subst hk
      simp [mset, mget?, h']
    · simp [mset, if_neg hk, mget?, ih]

theorem mget?_mset_of_miss {α : Type} (l : List (String × α)) (k k' : String)
    (v w : α) (hmiss : mget? l k = none) (h : mget? l k' = some w) :
    mget? (mset l k v) k' = some w := by
  have hne : k' ≠ k := by
    intro he
    rw [he, hmiss] at h
    exact Option.noConfusion h
  rw [mget?_mset_ne l k k' v hne]
  exact h

theorem mget?_map_none {β : Type} (l : List String) (f : String → β) (t : String)
    (h : t ∉ l) : mget? (l.map (fun n => (n, f n))) t = none := by
  induction l with
  | nil => rfl
  | cons hd tl ih =>
    simp only [List.mem_cons, not_or] at h
    simp [mget?, Ne.symm h.1, ih h.2]

/-! ## Lemmas about the `path.resolve` model -/

theorem strData_append (a b : String) : (a ++ b).data = a.data ++ b.data := by
  cases a
  cases b
  rfl

theorem splitSlashAux_good : ∀ (cs cur : List Char), '/' ∉ cur →
    ∀ x ∈ splitSlashAux cs cur, x.data ≠ [] ∧ '/' ∉ x.data := by
  intro cs
  induction cs with
  | nil =>
    intro cur hcur x hx
    simp only [splitSlashAux] at hx
    split at hx
    · exact absurd hx (List.not_mem_nil x)
    · next hne =>
      simp only [List.mem_singleton] at hx
      subst hx
      refine ⟨?_, ?_⟩
      · simpa [List.isEmpty_iff] using hne
      · simpa using hcur
  | cons c rest ih =>
    intro cur hcur x hx
    simp only [splitSlashAux] at hx
    split at hx
    · rw [List.mem_append] at hx
      rcases hx with hx | hx
      · split at hx
        · exact absurd hx (List.not_mem_nil x)
        · next hne =>
          simp only [List.mem_singleton] at hx
          subst hx
          refine ⟨?_, ?_⟩
          · simpa [List.isEmpty_iff] using hne
          · simpa using hcur
      · exact ih [] (List.not_mem_nil '/') x hx
    · next hc =>
      refine ih (c :: cur) ?_ x hx
      intro hmem
      rcases List.mem_cons.mp hmem with he | hmem'
      · exact hc he.symm
      · exact hcur hmem'

theorem splitSlashAux_append (seg : List Char) (h : '/' ∉ seg) :
    ∀ (rest cur : List Char),
      splitSlashAux (seg ++ rest) cur = splitSlashAux rest (seg.reverse ++ cur) := by
  induction seg with
  | nil => intro rest cur; rfl
  | cons c cs ih =>
    intro rest cur
    have hc : ¬ c = '/' := by
      intro he
      exact h (he ▸ List.mem_cons_self c cs)
    have hcs : '/' ∉ cs := fun hm => h (List.mem_cons_of_mem c hm)
    have step : splitSlashAux ((c :: cs) ++ rest) cur = splitSlashAux (cs ++ rest) (c :: cur) := by
      simp [splitSlashAux, if_neg hc]
    rw [step, ih hcs rest (c :: cur)]
    congr 1
    simp [List.reverse_cons, List.append_assoc]

theorem splitSlashAux_slash (rest cur : List Char) :
    splitSlashAux ('/' :: rest) cur =
      (if cur.isEmpty then [] else [String.mk cur.reverse]) ++ splitSlashAux rest [] := by
  simp [splitSlashAux]

theorem joinSegs_data_cons (s s' : String) (rest : List String) :
    (joinSegs (s :: s' :: rest)).data = s.data ++ '/' :: (joinSegs (s' :: rest)).data := by
  show (s ++ "/" ++ joinSegs (s' :: rest)).data = _
  rw [strData_append, strData_append]
  simp

theorem splitSlash_joinSegs : ∀ (l : List String),
    (∀ x ∈ l, x.data ≠ [] ∧ '/' ∉ x.data) →
    splitSlashAux (joinSegs l).data [] = l := by
  intro l
  induction l with
  | nil => intro; rfl
  | cons s rest ih =>
    intro hgood
    have hs := hgood s (List.mem_cons_self s rest)
    cases rest with
    | nil =>
      show splitSlashAux (joinSegs [s]).data [] = [s]
      have : joinSegs [s] = s := rfl
      rw [this, ← List.append_nil s.data, splitSlashAux_append s.data hs.2]
      simp only [splitSlashAux, List.append_nil]
      rw [if_neg (by simpa [List.isEmpty_iff] using hs.1)]
      simp
    | cons s' rest' =>
      rw [joinSegs_data_cons, splitSlashAux_append s.data hs.2, List.append_nil,
        splitSlashAux_slash]
      rw [if_neg (by simpa [List.isEmpty_iff] using hs.1)]
      rw [ih (fun x hx => hgood x (List.mem_cons_of_mem s hx))]
      simp

theorem pathSegs_unsplit (l : List String)
    (h : ∀ x ∈ l, x.data ≠ [] ∧ '/' ∉ x.data) : pathSegs (unsplit l) = l := by
  show splitSlashAux ("/" ++ joinSegs l).data [] = l
  rw [strData_append]
  show splitSlashAux ('/' :: (joinSegs l).data) [] = l
  rw [splitSlashAux_slash]
  simpa using splitSlash_joinSegs l h

theorem normAcc_fixed : ∀ (l acc : List String),
    (∀ x ∈ l, x ≠ "." ∧ x ≠ "..") → normAcc acc l = acc.reverse ++ l := by
  intro l
  induction l with
  | nil => intro acc _; simp [normAcc]
  | cons s rest ih =>
    intro acc h
    have hs := h s (List.mem_cons_self s rest)
    simp only [normAcc, if_neg hs.1, if_neg hs.2]
    rw [ih (s :: acc) (fun x hx => h x (List.mem_cons_of_mem s hx))]
    simp

theorem normAcc_good : ∀ (l acc : List String),
    (∀ x ∈ l, x.data ≠ [] ∧ '/' ∉ x.data) →
    (∀ x ∈ acc, (x.data ≠ [] ∧ '/' ∉ x.data) ∧ x ≠ "." ∧ x ≠ "..") →
    ∀ x ∈ normAcc acc l, (x.data ≠ [] ∧ '/' ∉ x.data) ∧ x ≠ "." ∧ x ≠ ".." := by
  intro l
  induction l with
  | nil =>
    intro acc _ hacc x hx
    simp only [normAcc] at hx
    exact hacc x (List.mem_reverse.mp hx)
  | cons s rest ih =>
    intro acc hl hacc x hx
    have hrest : ∀ x ∈ rest, x.data ≠ [] ∧ '/' ∉ x.data :=
      fun x hx => hl x (List.mem_cons_of_mem s hx)
    simp only [normAcc] at hx
    by_cases h1 : s = "."
    · rw [if_pos h1] at hx
      exact ih acc hrest hacc x hx
    · rw [if_neg h1] at hx
      by_cases h2 : s = ".."
      · rw [if_pos h2] at hx
        refine ih acc.tail hrest (fun y hy => hacc y ?_) x hx
        exact List.mem_of_mem_tail hy
      · rw [if_neg h2] at hx
        refine ih (s :: acc) hrest (fun y hy => ?_) x hx
        rcases List.mem_cons.mp hy with he | hy'
        · exact he ▸ ⟨hl s (List.mem_cons_self s rest), h1, h2⟩
        · exact hacc y hy'

theorem isAbsolute_unsplit (l : List String) : isAbsolute (unsplit l) = true := by
  have hd : (unsplit l).data = '/' :: (joinSegs l).data := strData_append "/" (joinSegs l)
  simp [isAbsolute, hd]

/-- The segment list a `resolve` call normalizes is made of good segments. -/
theorem resolve_input_good (cwd p : String) :
    ∀ x ∈ (if isAbsolute p then pathSegs p else pathSegs cwd ++ pathSegs p),
      x.data ≠ [] ∧ '/' ∉ x.data := by
  intro x hx
  split at hx
  · exact splitSlashAux_good p.data [] (List.not_mem_nil '/') x hx
  · rcases List.mem_append.mp hx with hx | hx
    · exact splitSlashAux_good cwd.data [] (List.not_mem_nil '/') x hx
    · exact splitSlashAux_good p.data [] (List.not_mem_nil '/') x hx

/-- node's `path.resolve` is idempotent: resolving an already-resolved path
changes nothing. -/
theorem resolve_resolve (cwd p : String) :
    resolve cwd (resolve cwd p) = resolve cwd p := by
  have hgood :
      ∀ x ∈ normAcc [] (if isAbsolute p then pathSegs p else pathSegs cwd ++ pathSegs p),
        (x.data ≠ [] ∧ '/' ∉ x.data) ∧ x ≠ "." ∧ x ≠ ".." :=
    normAcc_good _ [] (resolve_input_good cwd p) (by intro x hx; cases hx)
  show resolve cwd
      (unsplit (normAcc [] (if isAbsolute p then pathSegs p else pathSegs cwd ++ pathSegs p))) = _
  set l := normAcc [] (if isAbsolute p then pathSegs p else pathSegs cwd ++ pathSegs p) with hl
  unfold resolve
  rw [isAbsolute_unsplit]
  simp only [if_true]
  rw [pathSegs_unsplit l (fun x hx => (hgood x hx).1)]
  rw [normAcc_fixed l [] (fun x hx => (hgood x hx).2)]
  rfl

/-! ## Effect lemmas for the pool methods -/

theorem getSource_frame (env : Env) (st : PState) (p : String) :
    (getSource env st p).2.asts = st.asts ∧
    (getSource env st p).2.targetMap = st.targetMap ∧
    (getSource env st p).2.functionMaps = st.functionMaps ∧
    (getSource env st p).2.controlFlowGraphs = st.controlFlowGraphs ∧
    (getSource env st p).2.targets = st.targets ∧
    (getSource env st p).2.astCalls = st.astCalls ∧
    (getSource env st p).2.mapCalls = st.mapCalls ∧
    (getSource env st p).2.cfgCalls = st.cfgCalls ∧
    (getSource env st p).2.targetNews = st.targetNews ∧
    (getSource env st p).2.sourceCalls ≤ st.sourceCalls + 1 := by
  simp only [getSource]
  split
  · exact ⟨rfl, rfl, rfl, rfl, rfl, rfl, rfl, rfl, rfl, Nat.le_succ _⟩
  · split
    · exact ⟨rfl, rfl, rfl, rfl, rfl, rfl, rfl, rfl, rfl, Nat.le_refl _⟩
    · exact ⟨rfl, rfl, rfl, rfl, rfl, rfl, rfl, rfl, rfl, Nat.le_refl _⟩

theorem getSource_sources_frame (env : Env) (st : PState) (p k : String)
    (hk : k ≠ resolve env.cwd p) :
    mget? (getSource env st p).2.sources k = mget? st.sources k := by
  simp only [getSource]
  split
  · rfl
  · split
    · rfl
    · exact mget?_mset_ne _ _ _ _ hk

theorem getSource_sources_mono (env : Env) (st : PState) (p k : String) (v : String)
    (hv : mget? st.sources k = some v) :
    mget? (getSource env st p).2.sources k = some v := by
  simp only [getSource]
  split
  · exact hv
  · next hmiss =>
    split
    · exact hv
    · exact mget?_mset_of_miss _ _ _ _ _ hmiss hv

theorem getSource_err (env : Env) (st : PState) (p : String) (e : Err) (st1 : PState)
    (h : getSource env st p = (Except.error e, st1)) :
    st1.sources = st.sources ∧ mget? st1.sources (resolve env.cwd p) = none := by
  simp only [getSource] at h
  split at h
  · exact absurd h (by simp)
  · next hmiss =>
    split at h
    · obtain ⟨-, h2⟩ := Prod.mk.injEq .. ▸ h
      subst h2
      exact ⟨rfl, hmiss⟩
    · exact absurd h (by simp)

theorem getAST_frame (env : Env) (st : PState) (p : String) :
    (getAST env st p).2.targetMap = st.targetMap ∧
    (getAST env st p).2.functionMaps = st.functionMaps ∧
    (getAST env st p).2.controlFlowGraphs = st.controlFlowGraphs ∧
    (getAST env st p).2.targets = st.targets ∧
    (getAST env st p).2.mapCalls = st.mapCalls ∧
    (getAST env st p).2.cfgCalls = st.cfgCalls ∧
    (getAST env st p).2.targetNews = st.targetNews ∧
    (getAST env st p).2.sourceCalls ≤ st.sourceCalls + 1 ∧
    (getAST env st p).2.astCalls ≤ st.astCalls + 1 := by
  simp only [getAST]
  split
  · exact ⟨rfl, rfl, rfl, rfl, rfl, rfl, rfl, Nat.le_succ _, Nat.le_succ _⟩
  · split
    · next e st1 heq =>
      obtain ⟨-, htm, hfm, hcf, htg, hac, hmc, hcc, htn, hsc⟩ :=
        heq ▸ getSource_frame env st (resolve env.cwd p)
      exact ⟨htm, hfm, hcf, htg, hmc, hcc, htn, hsc, hac ▸ Nat.le_succ _⟩
    · next s st1 heq =>
      obtain ⟨-, htm, hfm, hcf, htg, hac, hmc, hcc, htn, hsc⟩ :=
        heq ▸ getSource_frame env st (resolve env.cwd p)
      split
      · exact ⟨htm, hfm, hcf, htg, hmc, hcc, htn, hsc, by rw [hac]⟩
      · exact ⟨htm, hfm, hcf, htg, hmc, hcc, htn, hsc, by rw [hac]⟩

theorem getAST_sources_frame (env : Env) (st : PState) (p k : String)
    (hk : k ≠ resolve env.cwd p) :
    mget? (getAST env st p).2.sources k = mget? st.sources k := by
  have hk' : k ≠ resolve env.cwd (resolve env.cwd p) := by
    rw [resolve_resolve]; exact hk
  simp only [getAST]
  split
  · rfl
  · split
    · next e st1 heq =>
      have h2 := getSource_sources_frame env st (resolve env.cwd p) k hk'
      rw [heq] at h2
      exact h2
    · next s st1 heq =>
      have h2 := getSource_sources_frame env st (resolve env.cwd p) k hk'
      rw [heq] at h2
      split
      · exact h2
      · exact h2

theorem getAST_sources_mono (env : Env) (st : PState) (p k : String) (v : String)
    (hv : mget? st.sources k = some v) :
    mget? (getAST env st p).2.sources k = some v := by
  simp only [getAST]
  split
  · exact hv
  · split
    · next e st1 heq =>
      have h2 := getSource_sources_mono env st (resolve env.cwd p) k v hv
      rw [heq] at h2
      exact h2
    · next s st1 heq =>
      have h2 := getSource_sources_mono env st (resolve env.cwd p) k v hv
      rw [heq] at h2
      split
      · exact h2
      · exact h2

theorem getAST_asts_frame (env : Env) (st : PState) (p k : String)
    (hk : k ≠ resolve env.cwd p) :
    mget? (getAST env st p).2.asts k = mget? st.asts k := by
  simp only [getAST]
  split
  · rfl
  · split
    · next e st1 heq =>
      have ha := (heq ▸ getSource_frame env st (resolve env.cwd p)).1
      show mget? st1.asts k = mget? st.asts k
      rw [ha]
    · next s st1 heq =>
      have ha := (heq ▸ getSource_frame env st (resolve env.cwd p)).1
      split
      · show mget? (mset st1.asts (resolve env.cwd p) _) k = mget? st.asts k
        rw [mget?_mset_ne _ _ _ _ hk, ha]
      · show mget? st1.asts k = mget? st.asts k
        rw [ha]

theorem getAST_asts_mono (env : Env) (st : PState) (p k : String) (v : AST)
    (hv : mget? st.asts k = some v) :
    mget? (getAST env st p).2.asts k = some v := by
  simp only [getAST]
  split
  · exact hv
  · next hmiss =>
    split
    · next e st1 heq =>
      have ha := (heq ▸ getSource_frame env st (resolve env.cwd p)).1
      show mget? st1.asts k = some v
      rw [ha]; exact hv
    · next s st1 heq =>
      have ha := (heq ▸ getSource_frame env st (resolve env.cwd p)).1
      split
      · show mget? (mset st1.asts (resolve env.cwd p) _) k = some v
        rw [ha]
        exact mget?_mset_of_miss _ _ _ _ _ hmiss hv
      · show mget? st1.asts k = some v
        rw [ha]; exact hv

theorem getAST_err (env : Env) (st : PState) (p : String) (e : Err) (st1 : PState)
    (h : getAST env st p = (Except.error e, st1)) :
    st1.asts = st.asts ∧ mget? st1.asts (resolve env.cwd p) = none := by
  simp only [getAST] at h
  split at h
  · exact absurd h (by simp)
  · next hmiss =>
    split at h
    · next e' st' heq =>
      obtain ⟨-, h2⟩ := Prod.mk.injEq .. ▸ h
      subst h2
      have ha := (heq ▸ getSource_frame env st (resolve env.cwd p)).1
      exact ⟨ha, ha ▸ hmiss⟩
    · next s st' heq =>
      split at h
      · exact absurd h (by simp)
      · obtain ⟨-, h2⟩ := Prod.mk.injEq .. ▸ h
        subst h2
        have ha := (heq ▸ getSource_frame env st (resolve env.cwd p)).1
        exact ⟨ha, ha ▸ hmiss⟩

theorem getAST_ok_next (env : Env) (st : PState) (p : String) (a : AST) (st1 : PState)
    (h : getAST env st p = (Except.ok a, st1)) :
    getAST env st1 p = (Except.ok a, st1) := by
  simp only [getAST] at h
  split at h
  · next ast heq =>
    obtain ⟨h1, h2⟩ := Prod.mk.injEq .. ▸ h
    obtain rfl : ast = a := by simpa using h1
    subst h2
    simp only [getAST]
    rw [heq]
  · split at h
    · exact absurd h (by simp)
    · next s st' heq =>
      split at h
      · obtain ⟨h1, h2⟩ := Prod.mk.injEq .. ▸ h
        obtain rfl : (⟨st'.astCalls, s⟩ : AST) = a := by simpa using h1
        subst h2
        simp only [getAST]
        rw [mget?_mset_self]
      · exact absurd h (by simp)

theorem functionMapLookup_state (st : PState) (rp tp tn : String) :
    (functionMapLookup st rp tp tn).2 = st := by
  simp only [functionMapLookup]
  split
  · rfl
  · split
    · rfl
    · rfl

theorem getTargetMap_sources_frame (env : Env) (st : PState) (p k : String)
    (hk : k ≠ resolve env.cwd p) :
    mget? (getTargetMap env st p).2.sources k = mget? st.sources k := by
  have hk' : k ≠ resolve env.cwd (resolve env.cwd p) := by
    rw [resolve_resolve]; exact hk
  simp only [getTargetMap]
  split
  · rfl
  · split
    · next e st1 heq =>
      have h2 := getAST_sources_frame env st (resolve env.cwd p) k hk'
      rw [heq] at h2
      exact h2
    · next ast st1 heq =>
      have h2 := getAST_sources_frame env st (resolve env.cwd p) k hk'
      rw [heq] at h2
      exact h2

theorem getTargetMap_asts_frame (env : Env) (st : PState) (p k : String)
    (hk : k ≠ resolve env.cwd p) :
    mget? (getTargetMap env st p).2.asts k = mget? st.asts k := by
  have hk' : k ≠ resolve env.cwd (resolve env.cwd p) := by
    rw [resolve_resolve]; exact hk
  simp only [getTargetMap]
  split
  · rfl
  · split
    · next e st1 heq =>
      have h2 := getAST_asts_frame env st (resolve env.cwd p) k hk'
      rw [heq] at h2
      exact h2
    · next ast st1 heq =>
      have h2 := getAST_asts_frame env st (resolve env.cwd p) k hk'
      rw [heq] at h2
      exact h2

theorem getTargetMap_targetMap_frame (env : Env) (st : PState) (p k : String)
    (hk : k ≠ resolve env.cwd p) :
    mget? (getTargetMap env st p).2.targetMap k = mget? st.targetMap k := by
  simp only [getTargetMap]
  split
  · rfl
  · split
    · next e st1 heq =>
      have h2 := (heq ▸ getAST_frame env st (resolve env.cwd p)).1
      show mget? st1.targetMap k = mget? st.targetMap k
      rw [h2]
    · next ast st1 heq =>
      have h2 := (heq ▸ getAST_frame env st (resolve env.cwd p)).1
      show mget? (mset st1.targetMap (resolve env.cwd p) _) k = mget? st.targetMap k
      rw [mget?_mset_ne _ _ _ _ hk, h2]

theorem getTargetMap_functionMaps_frame (env : Env) (st : PState) (p k : String)
    (hk : k ≠ resolve env.cwd p) :
    mget? (getTargetMap env st p).2.functionMaps k = mget? st.functionMaps k := by
  simp only [getTargetMap]
  split
  · rfl
  · split
    · next e st1 heq =>
      have h2 := (heq ▸ getAST_frame env st (resolve env.cwd p)).2.1
      show mget? st1.functionMaps k = mget? st.functionMaps k
      rw [h2]
    · next ast st1 heq =>
      have h2 := (heq ▸ getAST_frame env st (resolve env.cwd p)).2.1
      show mget? (mset st1.functionMaps (resolve env.cwd p) _) k = mget? st.functionMaps k
      rw [mget?_mset_ne _ _ _ _ hk, h2]

theorem getFunctionMap_sources_frame (env : Env) (st : PState) (p t k : String)
    (hk : k ≠ resolve env.cwd p) :
    mget? (getFunctionMap env st p t).2.sources k = mget? st.sources k := by
  have hk' : k ≠ resolve env.cwd (resolve env.cwd p) := by
    rw [resolve_resolve]; exact hk
  simp only [getFunctionMap]
  split
  · rw [functionMapLookup_state]
  · split
    · next e st1 heq =>
      have h2 := getAST_sources_frame env st (resolve env.cwd p) k hk'
      rw [heq] at h2
      exact h2
    · next ast st1 heq =>
      rw [functionMapLookup_state]
      have h2 := getAST_sources_frame env st (resolve env.cwd p) k hk'
      rw [heq] at h2
      exact h2

theorem getFunctionMap_asts_frame (env : Env) (st : PState) (p t k : String)
    (hk : k ≠ resolve env.cwd p) :
    mget? (getFunctionMap env st p t).2.asts k = mget? st.asts k := by
  have hk' : k ≠ resolve env.cwd (resolve env.cwd p) := by
    rw [resolve_resolve]; exact hk
  simp only [getFunctionMap]
  split
  · rw [functionMapLookup_state]
  · split
    · next e st1 heq =>
      have h2 := getAST_asts_frame env st (resolve env.cwd p) k hk'
      rw [heq] at h2
      exact h2
    · next ast st1 heq =>
      rw [functionMapLookup_state]
      have h2 := getAST_asts_frame env st (resolve env.cwd p) k hk'
      rw [heq] at h2
      exact h2

theorem getFunctionMap_targetMap_frame (env : Env) (st : PState) (p t k : String)
    (hk : k ≠ resolve env.cwd p) :
    mget? (getFunctionMap env st p t).2.targetMap k = mget? st.targetMap k := by
  simp only [getFunctionMap]
  split
  · rw [functionMapLookup_state]
  · split
    · next e st1 heq =>
      have h2 := (heq ▸ getAST_frame env st (resolve env.cwd p)).1
      show mget? st1.targetMap k = mget? st.targetMap k
      rw [h2]
    · next ast st1 heq =>
      rw [functionMapLookup_state]
      have h2 := (heq ▸ getAST_frame env st (resolve env.cwd p)).1
      show mget? (mset st1.targetMap (resolve env.cwd p) _) k = mget? st.targetMap k
      rw [mget?_mset_ne _ _ _ _ hk, h2]

theorem getFunctionMap_functionMaps_frame (env : Env) (st : PState) (p t k : String)
    (hk : k ≠ resolve env.cwd p) :
    mget? (getFunctionMap env st p t).2.functionMaps k = mget? st.functionMaps k := by
  simp only [getFunctionMap]
  split
  · rw [functionMapLookup_state]
  · split
    · next e st1 heq =>
      have h2 := (heq ▸ getAST_frame env st (resolve env.cwd p)).2.1
      show mget? st1.functionMaps k = mget? st.functionMaps k
      rw [h2]
    · next ast st1 heq =>
      rw [functionMapLookup_state]
      have h2 := (heq ▸ getAST_frame env st (resolve env.cwd p)).2.1
      show mget? (mset st1.functionMaps (resolve env.cwd p) _) k = mget? st.functionMaps k
      rw [mget?_mset_ne _ _ _ _ hk, h2]

theorem getFunctionMap_targets (env : Env) (st : PState) (p t : String) :
    (getFunctionMap env st p t).2.targets = st.targets := by
  simp only [getFunctionMap]
  split
  · rw [functionMapLookup_state]
  · split
    · next e st1 heq =>
      have h2 := (heq ▸ getAST_frame env st (resolve env.cwd p)).2.2.2.1
      exact h2
    · next ast st1 heq =>
      rw [functionMapLookup_state]
      have h2 := (heq ▸ getAST_frame env st (resolve env.cwd p)).2.2.2.1
      exact h2

/-! ## Claims -/

/-- C1: when `getAST(p)` succeeds, calling it a second time returns the
identical cached `SyntaxTree` instance and the identical pool state (so the
second call invokes no generator), and across the calls the source loader and
the AST generator have each been invoked at most once. -/
theorem c1_getAST_second_call_cached (env : Env) (st : PState) (p : String)
    (a : AST) (st1 : PState) (h : getAST env st p = (Except.ok a, st1)) :
    getAST env st1 p = (Except.ok a, st1) ∧
    st1.sourceCalls ≤ st.sourceCalls + 1 ∧ st1.astCalls ≤ st.astCalls + 1 := by
  obtain ⟨-, -, -, -, -, -, -, hsc, hac⟩ := getAST_frame env st p
  rw [h] at hsc hac
  exact ⟨getAST_ok_next env st p a st1 h, hsc, hac⟩

/-- Witness for C1 at a concrete input. -/
theorem c1_witness :
    getAST envA (getAST envA initState "a.sol").2 "a.sol" =
      (Except.ok ⟨0, "srcA"⟩, (getAST envA initState "a.sol").2) ∧
    (getAST envA initState "a.sol").2.sourceCalls ≤ initState.sourceCalls + 1 ∧
    (getAST envA initState "a.sol").2.astCalls ≤ initState.astCalls + 1 :=
  c1_getAST_second_call_cached envA initState "a.sol" ⟨0, "srcA"⟩
    (getAST envA initState "a.sol").2 (by rfl)

/-- C8: the constructor never assigns `_targets`, and while that field is
unassigned every `getCFG` and every `createTarget` call throws instead of
reaching its normal return path. -/
theorem c8_targets_uninitialized :
    initState.targets = none ∧
    ∀ (env : Env) (st : PState) (p t : String), st.targets = none →
      isErr (getCFG env st p t).1 = true ∧
      isErr (createTarget env st p t).1 = true := by
  refine ⟨rfl, fun env st p t h => ⟨?_, ?_⟩⟩
  · simp only [getCFG]
    rw [h]
    rfl
  · simp only [createTarget]
    split
    · rfl
    · next source st1 heq1 =>
      have h1 : st1.targets = st.targets := by
        have h0 := (getSource_frame env st (resolve env.cwd p)).2.2.2.2.1
        rw [heq1] at h0
        exact h0
      split
      · rfl
      · next ast st2 heq2 =>
        have h2 : st2.targets = st1.targets := by
          have h0 := (getAST_frame env st1 (resolve env.cwd p)).2.2.2.1
          rw [heq2] at h0
          exact h0
        split
        · rfl
        · next fm st3 heq3 =>
          have h3 : st3.targets = st2.targets := by
            have h0 := getFunctionMap_targets env st2 (resolve env.cwd p) t
            rw [heq3] at h0
            exact h0
          have hc : getCFG env st3 (resolve env.cwd p) t =
              (Except.error Err.typeError, st3) := by
            simp only [getCFG]
            rw [h3, h2, h1, h]
          rw [hc]
          rfl

/-- Witness for C8 at a concrete input. -/
theorem c8_witness :
    isErr (getCFG envA initState "a.sol" "A").1 = true ∧
    isErr (createTarget envA initState "a.sol" "A").1 = true :=
  c8_targets_uninitialized.2 envA initState "a.sol" "A" rfl

/-- C10: an operation on path `p` leaves every cache entry keyed by any other
canonical path untouched: for each of `getSource`, `getAST`, `getTargetMap`
and `getFunctionMap`, the `sources`, `asts`, `targetMap` and `functionMaps`
entries at every key other than `resolve(p)` are unchanged. -/
theorem c10_per_path_frame (env : Env) (st : PState) (p t k : String)
    (hk : k ≠ resolve env.cwd p) :
    (mget? (getSource env st p).2.sources k = mget? st.sources k ∧
     mget? (getSource env st p).2.asts k = mget? st.asts k ∧
     mget? (getSource env st p).2.targetMap k = mget? st.targetMap k ∧
     mget? (getSource env st p).2.functionMaps k = mget? st.functionMaps k) ∧
    (mget? (getAST env st p).2.sources k = mget? st.sources k ∧
     mget? (getAST env st p).2.asts k = mget? st.asts k ∧
     mget? (getAST env st p).2.targetMap k = mget? st.targetMap k ∧
     mget? (getAST env st p).2.functionMaps k = mget? st.functionMaps k) ∧
    (mget? (getTargetMap env st p).2.sources k = mget? st.sources k ∧
     mget? (getTargetMap env st p).2.asts k = mget? st.asts k ∧
     mget? (getTargetMap env st p).2.targetMap k = mget? st.targetMap k ∧
     mget? (getTargetMap env st p).2.functionMaps k = mget? st.functionMaps k) ∧
    (mget? (getFunctionMap env st p t).2.sources k = mget? st.sources k ∧
     mget? (getFunctionMap env st p t).2.asts k = mget? st.asts k ∧
     mget? (getFunctionMap env st p t).2.targetMap k = mget? st.targetMap k ∧
     mget? (getFunctionMap env st p t).2.functionMaps k = mget? st.functionMaps k) := by
  obtain ⟨hsa, hst, hsf, -, -, -, -, -, -, -⟩ := getSource_frame env st p
  obtain ⟨hat, haf, -, -, -, -, -, -, -⟩ := getAST_frame env st p
  refine ⟨⟨getSource_sources_frame env st p k hk, ?_, ?_, ?_⟩,
    ⟨getAST_sources_frame env st p k hk, getAST_asts_frame env st p k hk, ?_, ?_⟩,
    ⟨getTargetMap_sources_frame env st p k hk, getTargetMap_asts_frame env st p k hk,
     getTargetMap_targetMap_frame env st p k hk,
     getTargetMap_functionMaps_frame env st p k hk⟩,
    ⟨getFunctionMap_sources_frame env st p t k hk,
     getFunctionMap_asts_frame env st p t k hk,
     getFunctionMap_targetMap_frame env st p t k hk,
     getFunctionMap_functionMaps_frame env st p t k hk⟩⟩
  · rw [hsa]
  · rw [hst]
  · rw [hsf]
  · rw [hat]
  · rw [haf]

/-- Witness for C10 at a concrete input. -/
theorem c10_witness :
    mget? (getSource envA initState "a.sol").2.sources "/other" =
      mget? initState.sources "/other" :=
  ((c10_per_path_frame envA initState "a.sol" "A" "/other" (by decide)).1).1

/-- C5: requesting a target name absent from a file's target map makes
`getFunctionMap` throw an error whose message names both the target name and
the (raw) file path; map-cache entries present before the failed call — in
particular those of the file's other, valid targets — are unchanged by it.
Stated for the cached case (state fully unchanged), for the uncached case
(under the lock-step invariant, every prior entry survives), and for the
error message text. -/
theorem c5_unknown_target_error :
    (∀ (env : Env) (st : PState) (p t : String) (fm : FMaps),
      mget? st.functionMaps (resolve env.cwd p) = some fm →
      mget? fm.entries t = none →
      getFunctionMap env st p t = (Except.error (Err.unknownTarget t p), st)) ∧
    (∀ (env : Env) (st : PState) (p t : String) (ast : AST) (st1 : PState),
      SyncInv st →
      mget? st.functionMaps (resolve env.cwd p) = none →
      getAST env st (resolve env.cwd p) = (Except.ok ast, st1) →
      t ∉ env.targetsOf ast.source →
      (getFunctionMap env st p t).1 = Except.error (Err.unknownTarget t p) ∧
      (∀ k v, mget? st.targetMap k = some v →
        mget? (getFunctionMap env st p t).2.targetMap k = some v) ∧
      (∀ k v, mget? st.functionMaps k = some v →
        mget? (getFunctionMap env st p t).2.functionMaps k = some v)) ∧
    (∀ t p, (Err.unknownTarget t p).message =
      "Target " ++ t ++ " could not be found at " ++ p) := by
  refine ⟨?_, ?_, fun t p => rfl⟩
  · intro env st p t fm h1 h2
    simp only [getFunctionMap, h1, functionMapLookup, h2]
  · intro env st p t ast st1 hInv h1 hast hmem
    have hfmgen : mget? ((env.targetsOf ast.source).map
        (fun n => (n, env.functionsOf ast.source n))) t = none :=
      mget?_map_none _ _ _ hmem
    have htm1 : st1.targetMap = st.targetMap := by
      have h0 := (getAST_frame env st (resolve env.cwd p)).1
      rw [hast] at h0
      exact h0
    have hfm1 : st1.functionMaps = st.functionMaps := by
      have h0 := (getAST_frame env st (resolve env.cwd p)).2.1
      rw [hast] at h0
      exact h0
    have hred : getFunctionMap env st p t =
        (Except.error (Err.unknownTarget t p),
         { st1 with
             mapCalls := st1.mapCalls + 1
             targetMap := mset st1.targetMap (resolve env.cwd p)
               ⟨st1.mapCalls, env.targetsOf ast.source⟩
             functionMaps := mset st1.functionMaps (resolve env.cwd p)
               ⟨st1.mapCalls, (env.targetsOf ast.source).map
                 (fun n => (n, env.functionsOf ast.source n))⟩ }) := by
      simp only [getFunctionMap, h1, hast, generateMaps, functionMapLookup,
        mget?_mset_self, hfmgen]
    refine ⟨by rw [hred], ?_, ?_⟩
    · intro k v hv
      by_cases hk : k = resolve env.cwd p
      · exfalso
        rcases hInv (resolve env.cwd p) with ⟨ht, -⟩ | ⟨tm, fm, -, hfm, -⟩
        · rw [hk] at hv
          rw [hv] at ht
          exact Option.noConfusion ht
        · rw [hfm] at h1
          exact Option.noConfusion h1
      · rw [hred]
        show mget? (mset st1.targetMap (resolve env.cwd p) _) k = some v
        rw [mget?_mset_ne _ _ _ _ hk, htm1]
        exact hv
    · intro k v hv
      by_cases hk : k = resolve env.cwd p
      · exfalso
        rw [hk] at hv
        rw [hv] at h1
        exact Option.noConfusion h1
      · rw [hred]
        show mget? (mset st1.functionMaps (resolve env.cwd p) _) k = some v
        rw [mget?_mset_ne _ _ _ _ hk, hfm1]
        exact hv

/-- Witness for C5 at a concrete input. -/
theorem c5_witness :
    getFunctionMap envA stFM "a.sol" "B" =
      (Except.error (Err.unknownTarget "B" "a.sol"), stFM) :=
  c5_unknown_target_error.1 envA stFM "a.sol" "B" fmA (by decide) (by decide)

/-- C7 counterexample: the claim asserts that after the AST generator throws
inside `getAST(p)` "the sources and AST caches have no entry for p afterwards
(state unchanged on error)" — but the source computed by the inner
`getSource` call stays cached: here `getAST` fails with a parse error yet the
sources cache afterwards holds the entry for the path. -/
theorem c7_counterexample :
    (getAST envBad initState "a.sol").1 = Except.error Err.parseError ∧
    mget? (getAST envBad initState "a.sol").2.sources
      (resolve envBad.cwd "a.sol") = some "bad" :=
  ⟨rfl, rfl⟩

/-- C7 amended: the failed computation itself is never memoized: a failing
`getSource(p)` leaves the sources and AST caches exactly as they were, with
no sources entry for `p`; a failing `getAST(p)` leaves the AST cache exactly
as it was, with no entry for `p` (the source fetched by the inner `getSource`
call, a successful computation, may remain cached); so a later call
re-attempts the failed computation. -/
theorem c7_failure_not_memoized :
    (∀ (env : Env) (st : PState) (p : String) (e : Err) (st1 : PState),
      getSource env st p = (Except.error e, st1) →
      st1.sources = st.sources ∧
      mget? st1.sources (resolve env.cwd p) = none ∧
      st1.asts = st.asts) ∧
    (∀ (env : Env) (st : PState) (p : String) (e : Err) (st1 : PState),
      getAST env st p = (Except.error e, st1) →
      st1.asts = st.asts ∧ mget? st1.asts (resolve env.cwd p) = none) := by
  constructor
  · intro env st p e st1 h
    obtain ⟨h1, h2⟩ := getSource_err env st p e st1 h
    have h3 : st1.asts = st.asts := by
      have h0 := (getSource_frame env st p).1
      rw [h] at h0
      exact h0
    exact ⟨h1, h2, h3⟩
  · intro env st p e st1 h
    exact getAST_err env st p e st1 h

/-- Witness for C7's amended theorem at a concrete input. -/
theorem c7_witness :
    ({ initState with sourceCalls := 1 } : PState).sources = initState.sources ∧
    mget? ({ initState with sourceCalls := 1 } : PState).sources
      (resolve envNoSrc.cwd "a.sol") = none ∧
    ({ initState with sourceCalls := 1 } : PState).asts = initState.asts :=
  c7_failure_not_memoized.1 envNoSrc initState "a.sol" Err.ioError
    { initState with sourceCalls := 1 } (by rfl)

/-- C9: under the lock-step invariant, a successful `getTargetMap(p)` leaves
both map caches holding entries for `resolve(p)` stamped by the same
generator run, and a following `getFunctionMap(p, t)` changes nothing (no new
generation); symmetrically, after a successful `getFunctionMap(p, t)` a
following `getTargetMap(p)` returns the matching cached entry with no state
change; and both getters preserve the invariant. -/
theorem c9_map_caches_lockstep (env : Env) (st : PState) (p t : String)
    (hInv : SyncInv st) :
    (∀ tm st1, getTargetMap env st p = (Except.ok tm, st1) →
      ∃ fm, mget? st1.targetMap (resolve env.cwd p) = some tm ∧
        mget? st1.functionMaps (resolve env.cwd p) = some fm ∧ tm.id = fm.id ∧
        (getFunctionMap env st1 p t).2 = st1) ∧
    (∀ fns st1, getFunctionMap env st p t = (Except.ok fns, st1) →
      ∃ tm fm, mget? st1.targetMap (resolve env.cwd p) = some tm ∧
        mget? st1.functionMaps (resolve env.cwd p) = some fm ∧ tm.id = fm.id ∧
        getTargetMap env st1 p = (Except.ok tm, st1)) ∧
    SyncInv (getTargetMap env st p).2 ∧
    SyncInv (getFunctionMap env st p t).2 := by
  refine ⟨?_, ?_, ?_, ?_⟩
  · intro tm st1 h
    simp only [getTargetMap] at h
    split at h
    · next tm0 heq =>
      obtain ⟨h1, h2⟩ := Prod.mk.injEq .. ▸ h
      have htm0 : tm0 = tm := by simpa using h1
      rw [htm0] at heq
      subst h2
      rcases hInv (resolve env.cwd p) with ⟨ht, -⟩ | ⟨tm', fm, htm, hfm, hid⟩
      · rw [heq] at ht
        exact Option.noConfusion ht
      · have h3 : tm' = tm := Option.some.inj (htm.symm.trans heq)
        rw [h3] at hid
        refine ⟨fm, heq, hfm, hid, ?_⟩
        simp only [getFunctionMap, hfm]
        exact functionMapLookup_state st _ p t
    · next heq =>
      split at h
      · exact absurd h (by simp)
      · next ast st' hgast =>
        obtain ⟨h1, h2⟩ := Prod.mk.injEq .. ▸ h
        obtain rfl : (generateMaps env st'.mapCalls ast.source).1 = tm := by
          simpa using h1
        subst h2
        refine ⟨(generateMaps env st'.mapCalls ast.source).2,
          mget?_mset_self _ _ _, mget?_mset_self _ _ _, rfl, ?_⟩
        simp only [getFunctionMap, mget?_mset_self]
        exact functionMapLookup_state _ _ p t
  · intro fns st1 h
    simp only [getFunctionMap] at h
    split at h
    · next fm0 heq =>
      simp only [functionMapLookup, heq] at h
      split at h
      · next fns0 hentry =>
        obtain ⟨h1, h2⟩ := Prod.mk.injEq .. ▸ h
        subst h2
        rcases hInv (resolve env.cwd p) with ⟨-, hf⟩ | ⟨tm, fm', htm, hfm, hid⟩
        · rw [heq] at hf
          exact Option.noConfusion hf
        · have h3 : fm' = fm0 := Option.some.inj (hfm.symm.trans heq)
          rw [h3] at hid
          refine ⟨tm, fm0, htm, heq, hid, ?_⟩
          simp only [getTargetMap, htm]
      · exact absurd h (by simp)
    · next heq =>
      split at h
      · exact absurd h (by simp)
      · next ast st' hgast =>
        simp only [functionMapLookup, generateMaps, mget?_mset_self] at h
        split at h
        · next fns0 hentry =>
          obtain ⟨h1, h2⟩ := Prod.mk.injEq .. ▸ h
          subst h2
          refine ⟨(generateMaps env st'.mapCalls ast.source).1,
            (generateMaps env st'.mapCalls ast.source).2,
            mget?_mset_self _ _ _, mget?_mset_self _ _ _, rfl, ?_⟩
          simp only [getTargetMap, generateMaps, mget?_mset_self]
        · exact absurd h (by simp)
  · simp only [getTargetMap]
    split
    · exact hInv
    · split
      · next e st' hgast =>
        have htm1 : st'.targetMap = st.targetMap := by
          have h0 := (getAST_frame env st (resolve env.cwd p)).1
          rw [hgast] at h0
          exact h0
        have hfm1 : st'.functionMaps = st.functionMaps := by
          have h0 := (getAST_frame env st (resolve env.cwd p)).2.1
          rw [hgast] at h0
          exact h0
        intro k
        show (mget? st'.targetMap k = none ∧ mget? st'.functionMaps k = none) ∨ _
        rw [htm1, hfm1]
        exact hInv k
      · next ast st' hgast =>
        have htm1 : st'.targetMap = st.targetMap := by
          have h0 := (getAST_frame env st (resolve env.cwd p)).1
          rw [hgast] at h0
          exact h0
        have hfm1 : st'.functionMaps = st.functionMaps := by
          have h0 := (getAST_frame env st (resolve env.cwd p)).2.1
          rw [hgast] at h0
          exact h0
        intro k
        by_cases hk : k = resolve env.cwd p
        · subst hk
          right
          exact ⟨(generateMaps env st'.mapCalls ast.source).1,
            (generateMaps env st'.mapCalls ast.source).2,
            mget?_mset_self _ _ _, mget?_mset_self _ _ _, rfl⟩
        · show (mget? (mset st'.targetMap (resolve env.cwd p) _) k = none ∧
              mget? (mset st'.functionMaps (resolve env.cwd p) _) k = none) ∨ _
          rw [mget?_mset_ne _ _ _ _ hk, mget?_mset_ne _ _ _ _ hk, htm1, hfm1]
          exact hInv k
  · simp only [getFunctionMap]
    split
    · rw [functionMapLookup_state]
      exact hInv
    · split
      · next e st' hgast =>
        have htm1 : st'.targetMap = st.targetMap := by
          have h0 := (getAST_frame env st (resolve env.cwd p)).1
          rw [hgast] at h0
          exact h0
        have hfm1 : st'.functionMaps = st.functionMaps := by
          have h0 := (getAST_frame env st (resolve env.cwd p)).2.1
          rw [hgast] at h0
          exact h0
        intro k
        show (mget? st'.targetMap k = none ∧ mget? st'.functionMaps k = none) ∨ _
        rw [htm1, hfm1]
        exact hInv k
      · next ast st' hgast =>
        rw [functionMapLookup_state]
        have htm1 : st'.targetMap = st.targetMap := by
          have h0 := (getAST_frame env st (resolve env.cwd p)).1
          rw [hgast] at h0
          exact h0
        have hfm1 : st'.functionMaps = st.functionMaps := by
          have h0 := (getAST_frame env st (resolve env.cwd p)).2.1
          rw [hgast] at h0
          exact h0
        intro k
        by_cases hk : k = resolve env.cwd p
        · subst hk
          right
          exact ⟨(generateMaps env st'.mapCalls ast.source).1,
            (generateMaps env st'.mapCalls ast.source).2,
            mget?_mset_self _ _ _, mget?_mset_self _ _ _, rfl⟩
        · show (mget? (mset st'.targetMap (resolve env.cwd p) _) k = none ∧
              mget? (mset st'.functionMaps (resolve env.cwd p) _) k = none) ∨ _
          rw [mget?_mset_ne _ _ _ _ hk, mget?_mset_ne _ _ _ _ hk, htm1, hfm1]
          exact hInv k

/-- Witness for C9 at a concrete input. -/
theorem c9_witness : (getFunctionMap envA stFM "a.sol" "A").2 = stFM := by
  have hInv : SyncInv stFM := by
    intro k
    by_cases hk : ("/w/a.sol" : String) = k
    · right
      exact ⟨tmA, fmA, by simp [stFM, mget?, hk], by simp [stFM, mget?, hk], rfl⟩
    · left
      constructor <;> simp [stFM, mget?, hk]
  obtain ⟨fm, -, -, -, h4⟩ :=
    (c9_map_caches_lockstep envA stFM "a.sol" "A" hInv).1 tmA stFM (by rfl)
  exact h4

/-- C2 (code bug): `getCFG` does not compute at most once per key: it never
reads the `_controlFlowGraphs` cache it writes, so with `_targets`
bootstrapped to an empty map a second call for the same `(path, targetName)`
invokes the generator again and returns a different instance; and on a pool
as actually constructed (`_targets` unassigned) every call throws before any
caching can happen. -/
theorem c2_getCFG_recomputed :
    (getCFG envA initState "a.sol" "A").1 = Except.error Err.typeError ∧
    (getCFG envA stTargetsEmpty "a.sol" "A").1 = Except.ok ⟨0, "srcA"⟩ ∧
    (getCFG envA (getCFG envA stTargetsEmpty "a.sol" "A").2 "a.sol" "A").1 =
      Except.ok ⟨1, "srcA"⟩ ∧
    (getCFG envA (getCFG envA stTargetsEmpty "a.sol" "A").2 "a.sol" "A").2.cfgCalls = 2 :=
  ⟨rfl, rfl, rfl, rfl⟩

/-- C3 (code bug): `createTarget` is not idempotent and loses siblings: on a
fresh pool it throws (`_targets` was never assigned); and when `_targets`
already holds a `Target` for another name of the same file, the call replaces
the whole inner map with a fresh one containing only the new entry, so the
previously cached sibling is gone instead of remaining present. -/
theorem c3_createTarget_not_idempotent :
    isErr (createTarget envA initState "a.sol" "A").1 = true ∧
    stSeeded.targets.elim none (fun m =>
      (mget? m "a.sol").elim none (fun inner => mget? inner "B")) = some tgtB ∧
    (createTarget envA stSeeded "a.sol" "A").1 = Except.ok tgtNew ∧
    (createTarget envA stSeeded "a.sol" "A").2.targets.elim none (fun m =>
      (mget? m "a.sol").elim none (fun inner => mget? inner "B")) = none :=
  ⟨rfl, rfl, rfl, rfl⟩

/-- C6 (code bug): "one ControlFlowGraph per (FilePath, target), never
recomputed or replaced once present" fails: the CFG cache is keyed per path
alone and every generating `getCFG` call overwrites it — after a second call
(here even for a different target of the same file) the cached entry has been
replaced by a different CFG instance. -/
theorem c6_cfg_cache_overwritten :
    mget? (getCFG envA stTargetsEmpty "a.sol" "A").2.controlFlowGraphs
      "/w/a.sol" = some ⟨0, "srcA"⟩ ∧
    mget? (getCFG envA (getCFG envA stTargetsEmpty "a.sol" "A").2 "a.sol" "B").2.controlFlowGraphs
      "/w/a.sol" = some ⟨1, "srcA"⟩ :=
  ⟨rfl, rfl⟩

/-- C4 counterexample: `createTarget` does not key its cache on the resolved
path: after a call with the relative path `a.sol` (working directory `/w`),
the `_targets` map holds the assembled `Target` under the raw key `"a.sol"`
and nothing under the canonical `"/w/a.sol"`. -/
theorem c4_counterexample :
    resolve envA.cwd "a.sol" = "/w/a.sol" ∧
    (createTarget envA stSeeded "a.sol" "A").2.targets =
      some [("a.sol", [("A", tgtNew)])] ∧
    (createTarget envA stSeeded "a.sol" "A").2.targets.elim none
      (fun m => mget? m "/w/a.sol") = none :=
  ⟨rfl, rfl, rfl⟩

/-- For any outer state, `functionMapLookup` answers `Except.ok` the same way
regardless of the raw path it would embed in an error message. -/
theorem functionMapLookup_ok_iff (st : PState) (rp tp tq tn : String)
    (v : List String) :
    (functionMapLookup st rp tp tn).1 = Except.ok v ↔
      (functionMapLookup st rp tq tn).1 = Except.ok v := by
  simp only [functionMapLookup]
  cases hm : mget? st.functionMaps rp with
  | none => exact Iff.rfl
  | some fm =>
    show ((match mget? fm.entries tn with
        | some fns => ((Except.ok fns : Except Err (List String)), st)
        | none => (Except.error (Err.unknownTarget tn tp), st)).1 = Except.ok v ↔
      (match mget? fm.entries tn with
        | some fns => ((Except.ok fns : Except Err (List String)), st)
        | none => (Except.error (Err.unknownTarget tn tq), st)).1 = Except.ok v)
    cases he : mget? fm.entries tn with
    | some fns => exact Iff.rfl
    | none => simp

/-- C4 amended: the five getters key on `resolve(path)`: two paths with equal
resolutions are handled identically — `getSource`, `getAST`, `getTargetMap`
and `getCFG` agree exactly, and `getFunctionMap` produces the same state and
the same successful results (only the raw path echoed in its error message
can differ); `createTarget` is excepted, as it stores under the raw path. -/
theorem c4_getters_key_on_resolved (env : Env) (st : PState) (p q t : String)
    (h : resolve env.cwd p = resolve env.cwd q) :
    getSource env st p = getSource env st q ∧
    getAST env st p = getAST env st q ∧
    getTargetMap env st p = getTargetMap env st q ∧
    getCFG env st p t = getCFG env st q t ∧
    (getFunctionMap env st p t).2 = (getFunctionMap env st q t).2 ∧
    ∀ v, (getFunctionMap env st p t).1 = Except.ok v ↔
      (getFunctionMap env st q t).1 = Except.ok v := by
  refine ⟨by simp only [getSource, h], by simp only [getAST, h],
    by simp only [getTargetMap, h], by simp only [getCFG, h], ?_, ?_⟩
  · simp only [getFunctionMap, h]
    cases hfm : mget? st.functionMaps (resolve env.cwd q) with
    | some fm => rw [functionMapLookup_state, functionMapLookup_state]
    | none =>
      generalize getAST env st (resolve env.cwd q) = res
      obtain ⟨r, st1⟩ := res
      cases r with
      | error e => rfl
      | ok ast => rw [functionMapLookup_state, functionMapLookup_state]
  · intro v
    simp only [getFunctionMap, h]
    cases hfm : mget? st.functionMaps (resolve env.cwd q) with
    | some fm => exact functionMapLookup_ok_iff st (resolve env.cwd q) p q t v
    | none =>
      generalize getAST env st (resolve env.cwd q) = res
      obtain ⟨r, st1⟩ := res
      cases r with
      | error e => exact Iff.rfl
      | ok ast => exact functionMapLookup_ok_iff _ (resolve env.cwd q) p q t v

/-- Witness for C4's amended theorem at a concrete input. -/
theorem c4_witness :
    getSource envA initState "a.sol" = getSource envA initState "/w/a.sol" :=
  (c4_getters_key_on_resolved envA initState "a.sol" "/w/a.sol" "A" (by decide)).1

end TargetPool
